import Mathlib

set_option maxRecDepth 100000

/-!
Verification of the visioncheck image-evaluation service.

The development shallowly embeds the TypeScript source:
* `validateImageUrl` (src/utils/url-validator.ts) — SSRF / allowlist checks,
* the image-fetch content-length probe and content-type normalization
  (src/utils/url-validator.ts, fetchImageAsBase64),
* the request schema feature check (src/schemas/validation.ts),
* the HTTP route's error-to-status classification (src/routes/evaluate-image.ts),
* `VisionService.parseResponse` (src/services/vision-service.ts), together with a
  model of the JavaScript `JSON.parse` used by it.

Strings are processed as `List Char`; JavaScript numbers coming out of
`JSON.parse` are modelled exactly as rationals extended with plus/minus
infinity (JSON source text denotes exact decimal values; literals whose
magnitude reaches the IEEE-754 double overflow threshold become infinities,
which is the only double-specific behaviour the code under verification
can observe through comparisons with 0 and 1).
-/

/-- Substring test on `List Char`, the model of JavaScript
`String.prototype.includes`. -/
def listContains (hay needle : List Char) : Bool :=
  needle.isPrefixOf hay ||
    match hay with
    | [] => false
    | _ :: t => listContains t needle

/-- JavaScript `haystack.includes(needle)` on Lean strings. -/
def jsIncludes (hay needle : String) : Bool :=
  listContains hay.data needle.data

/-- Whitespace recognised by JavaScript `String.prototype.trim` (the code
points the service can actually meet in headers and model replies). -/
def jsIsWs (c : Char) : Bool :=
  c = ' ' || c = '\t' || c = '\n' || c = '\r' || c = '\x0b' || c = '\x0c'

/-- Trim from the left. -/
def trimLeftL (l : List Char) : List Char := l.dropWhile jsIsWs

/-- Trim from the right. -/
def trimRightL (l : List Char) : List Char :=
  (l.reverse.dropWhile jsIsWs).reverse

/-- Model of JavaScript `s.trim()` on `List Char`. -/
def jsTrimL (l : List Char) : List Char := trimRightL (trimLeftL l)

/-- Model of JavaScript `s.trim()` on strings. -/
def jsTrim (s : String) : String := ⟨jsTrimL s.data⟩

/-- ASCII lowercasing of one character, the case relevant to hostnames and
content types (JavaScript `toLowerCase`). -/
def charLower (c : Char) : Char :=
  if 65 ≤ c.toNat && c.toNat ≤ 90 then Char.ofNat (c.toNat + 32) else c

/-- Model of JavaScript `s.toLowerCase()`. -/
def strLower (s : String) : String := ⟨s.data.map charLower⟩

/-- Model of JavaScript `s.startsWith(p)`. -/
def strStarts (s p : String) : Bool := p.data.isPrefixOf s.data

/-- Model of JavaScript `s.endsWith(p)`. -/
def strEnds (s p : String) : Bool := p.data.isSuffixOf s.data

/-- Split a character list at every occurrence of `sep`; always returns at
least one (possibly empty) segment, like JavaScript `split`. -/
def splitAtChar (sep : Char) : List Char → List (List Char)
  | [] => [[]]
  | c :: t =>
    if c = sep then [] :: splitAtChar sep t
    else
      match splitAtChar sep t with
      | [] => [[c]]
      | h :: r => (c :: h) :: r

/-- Model of JavaScript `s.split(sep)` for a one-character separator. -/
def strSplit (s : String) (sep : Char) : List String :=
  (splitAtChar sep s.data).map (fun l => ⟨l⟩)

example : jsIncludes "Failed to fetch image" "fetch" = true := by decide
example : jsIncludes "Image size" "fetch" = false := by decide
example : jsTrim "  a b\n" = "a b" := by decide

/-- A URL after parsing by the WHATWG `URL` constructor: the two components
`validateImageUrl` reads. -/
structure ParsedUrl where
  protocol : String
  hostname : String
deriving DecidableEq

/-- Result record of `validateImageUrl`. -/
structure UrlValidation where
  isValid : Bool
  error : Option String
deriving DecidableEq

/-- The SSRF blocklist test of `validateImageUrl`
(src/utils/url-validator.ts lines 48-73), verbatim from the source. -/
def ssrfBlocked (hostname : String) : Bool :=
  hostname == "localhost" ||
  hostname == "127.0.0.1" ||
  hostname == "0.0.0.0" ||
  strStarts hostname "192.168." ||
  strStarts hostname "10." ||
  strStarts hostname "172.16." ||
  strStarts hostname "172.17." ||
  strStarts hostname "172.18." ||
  strStarts hostname "172.19." ||
  strStarts hostname "172.20." ||
  strStarts hostname "172.21." ||
  strStarts hostname "172.22." ||
  strStarts hostname "172.23." ||
  strStarts hostname "172.24." ||
  strStarts hostname "172.25." ||
  strStarts hostname "172.26." ||
  strStarts hostname "172.27." ||
  strStarts hostname "172.28." ||
  strStarts hostname "172.29." ||
  strStarts hostname "172.30." ||
  strStarts hostname "172.31." ||
  strStarts hostname "169.254." ||
  strStarts hostname "[::1]" ||
  strStarts hostname "[fe80:"

/-- The allowlist rejection test of `validateImageUrl`
(src/utils/url-validator.ts lines 26-45): true when an allowlist is given,
non-empty after trimming, and the hostname matches no entry exactly nor as a
dot-separated subdomain. -/
def allowlistRejects (hostname : String) (allowedDomains : Option String) : Bool :=
  match allowedDomains with
  | none => false
  | some ad =>
    if jsTrim ad == "" then false
    else
      let domains := ((strSplit ad ',').map (fun d => strLower (jsTrim d))).filter
        (fun d => decide (0 < d.length))
      if 0 < domains.length then
        !(domains.any (fun domain =>
            hostname == domain || strEnds hostname ("." ++ domain)))
      else false

/-- `validateImageUrl` (src/utils/url-validator.ts lines 8-95) after URL
parsing: the chain of early returns becomes a chain of conditionals. -/
def validateImageUrl (u : ParsedUrl) (allowedDomains : Option String) :
    UrlValidation :=
  if !(["http:", "https:"].contains u.protocol) then
    ⟨false, some "image_url must use HTTP or HTTPS protocol"⟩
  else if allowlistRejects (strLower u.hostname) allowedDomains then
    ⟨false, some "image_url domain is not in the allowed list"⟩
  else if ssrfBlocked (strLower u.hostname) then
    ⟨false, some "image_url cannot point to private or localhost addresses"⟩
  else if strLower u.hostname == "169.254.169.254" ||
      jsIncludes (strLower u.hostname) "metadata.google.internal" then
    ⟨false, some "image_url cannot point to metadata endpoints"⟩
  else ⟨true, none⟩

example :
    validateImageUrl ⟨"http:", "192.168.1.5"⟩ none =
      ⟨false, some "image_url cannot point to private or localhost addresses"⟩ := by
  decide

example : validateImageUrl ⟨"https:", "example.com"⟩ none = ⟨true, none⟩ := by
  decide

example :
    (validateImageUrl ⟨"https:", "img.example.com"⟩ (some "example.com")).isValid
      = true := by decide

/-- Hard cap on image size (src/utils/url-validator.ts, fetchImageAsBase64):
`10 * 1024 * 1024` bytes. -/
def MAX_IMAGE_SIZE : Nat := 10 * 1024 * 1024

/-- Decimal digit test (own definition so it reduces in the kernel). -/
def charIsDigit (c : Char) : Bool := 48 ≤ c.toNat && c.toNat ≤ 57

/-- Value of a digit list, most significant first. -/
def digitsToNat (l : List Char) : Nat :=
  l.foldl (fun a c => 10 * a + (c.toNat - 48)) 0

/-- Model of JavaScript `Number.parseInt(s, 10)`: skip leading whitespace,
optional sign, then the maximal run of leading digits; `none` models `NaN`.
(Precision loss of doubles above 2^53 is not modelled; the code only compares
the result against the 10 MiB cap, which such values exceed either way.) -/
def jsParseInt (s : String) : Option Int :=
  let l := s.data.dropWhile jsIsWs
  let core : List Char → Option Nat := fun r =>
    let ds := r.takeWhile charIsDigit
    if ds.isEmpty then none else some (digitsToNat ds)
  match l with
  | '-' :: r => (core r).map (fun n => -(n : Int))
  | '+' :: r => (core r).map (fun n => (n : Int))
  | r => (core r).map (fun n => (n : Int))

/-- JavaScript `Math.round(size / 1024 / 1024)` for an integer byte count:
floor of the quotient plus one half. -/
def roundedMb (size : Int) : Int := Int.fdiv (2 * size + 1048576) 2097152

/-- Size-cap error message thrown by the fetcher
(src/utils/url-validator.ts, fetchImageAsBase64). -/
def sizeExceededMsg (size : Int) : String :=
  "Image size (" ++ toString (roundedMb size) ++
    "MB) exceeds maximum allowed size (10MB)"

/-- Outcome of the advisory `axios.head` probe: either the request rejected
(non-200/405 status, network failure, timeout), or it resolved with an
optional `content-length` header. -/
inductive HeadProbeResult where
  | transportFailed
  | completed (contentLength : Option String)

/-- The content-length test inside the probe's `try` block: `if
(contentLength)` (absent or empty header is falsy), `Number.parseInt`,
`Number.isNaN` guard, strict comparison against the cap. -/
def headSizeCheck (contentLength : Option String) : Except String Unit :=
  match contentLength with
  | none => .ok ()
  | some cl =>
    if cl == "" then .ok ()
    else
      match jsParseInt cl with
      | none => .ok ()
      | some size =>
        if size > (MAX_IMAGE_SIZE : Int) then .error (sizeExceededMsg size)
        else .ok ()

/-- The whole probe step including its `catch`: transport failures are
swallowed, and a caught error is re-thrown only when its message contains
"exceeds maximum allowed size" (src/utils/url-validator.ts lines 119-146). -/
def headProbeStep (r : HeadProbeResult) : Except String Unit :=
  match r with
  | .transportFailed => .ok ()
  | .completed cl =>
    match headSizeCheck cl with
    | .ok _ => .ok ()
    | .error m =>
      if jsIncludes m "exceeds maximum allowed size" then .error m else .ok ()

/-- The fetcher's allowed content types (src/utils/url-validator.ts). -/
def allowedImageTypes : List String :=
  ["image/jpeg", "image/jpg", "image/png", "image/webp"]

/-- `(response.headers["content-type"] || "").toLowerCase().split(";")[0].trim()`. -/
def cleanContentType (header : Option String) : String :=
  jsTrim ((strSplit (strLower (header.getD "")) ';').headD "")

/-- Unsupported-format error message thrown by the fetcher. -/
def unsupportedFormatMsg (ct : String) : String :=
  "Unsupported image format: " ++ ct ++ ". Supported formats: JPG, PNG, WebP"

/-- Content-type validation and normalization after retrieval
(src/utils/url-validator.ts lines 163-191): reject a present type that
contains no allowed type; otherwise normalize to png / webp / jpeg. -/
def contentTypeStep (header : Option String) : Except String String :=
  if cleanContentType header != "" &&
      !(allowedImageTypes.any (fun ty => jsIncludes (cleanContentType header) ty)) then
    .error (unsupportedFormatMsg (cleanContentType header))
  else
    .ok (if jsIncludes (cleanContentType header) "png" then "image/png"
         else if jsIncludes (cleanContentType header) "webp" then "image/webp"
         else "image/jpeg")

/-- The zod feature rule of `EvaluateImageRequestSchema`
(src/schemas/validation.ts lines 24-27): `.min(1).max(500)` on the string
length. -/
def featureSchemaAccepts (feature : String) : Bool :=
  decide (1 ≤ feature.length) && decide (feature.length ≤ 500)

/-- A failed evaluation as the route sees it (src/routes/evaluate-image.ts):
a zod validation failure and a URL-validator rejection are answered directly;
everything thrown later lands in the `catch` block carrying its message. -/
inductive RouteFailure where
  | requestValidation
  | urlSecurity
  | thrown (msg : String)

/-- HTTP status the route responds with for a failure: 400 for the two
direct rejections; for a caught error, 400 exactly when the message contains
"fetch", "timeout", "HTTP" or "format", else 500
(src/routes/evaluate-image.ts lines 81-166). -/
def routeErrorStatus : RouteFailure → Nat
  | .requestValidation => 400
  | .urlSecurity => 400
  | .thrown m =>
    if jsIncludes m "fetch" || jsIncludes m "timeout" ||
        jsIncludes m "HTTP" || jsIncludes m "format" then 400
    else 500

/-- "Image fetch timeout" message (src/services/vision-service.ts). -/
def fetchTimeoutMsg : String :=
  "Image fetch timeout: The image URL took too long to respond"

/-- HTTP-status fetch failure message (src/services/vision-service.ts). -/
def fetchHttpStatusMsg (status : Nat) : String :=
  "Failed to fetch image: HTTP " ++ toString status

/-- Generic fetch failure message (src/services/vision-service.ts). -/
def fetchFailedMsg (m : String) : String := "Failed to fetch image: " ++ m

/-- Upstream API error message (src/services/vision-service.ts). -/
def openRouterApiErrorMsg (m : String) : String := "OpenRouter API error: " ++ m

/-- Upstream request failure message (src/services/vision-service.ts). -/
def openRouterRequestFailedMsg (m : String) : String :=
  "OpenRouter API request failed: " ++ m

/-- Missing-reply message (src/services/vision-service.ts). -/
def noModelResponseMsg : String := "No response from AI model"

/-- Raw-reply parse failure message (src/services/vision-service.ts). -/
def jsonParseFailMsg (content : String) : String :=
  "Failed to parse AI response as JSON: " ++ content

/-- An exact decimal number `man * 10 ^ exp10`, deliberately not
normalized: the representation a JSON literal directly denotes. -/
structure DecNum where
  man : Int
  exp10 : Int
deriving DecidableEq

/-- `10 ^ n` as an integer, computed in `Nat` (kernel-accelerated). -/
def pow10 (n : Nat) : Int := ((10 ^ n : Nat) : Int)

/-- Order on decimal numbers by cross-scaling to a common exponent. -/
def decNumLe (a b : DecNum) : Bool :=
  decide (a.man * pow10 (a.exp10 - min a.exp10 b.exp10).toNat ≤
    b.man * pow10 (b.exp10 - min a.exp10 b.exp10).toNat)

/-- A JavaScript number as `JSON.parse` can produce it: an exact decimal
value, or an infinity from an overflowing literal such as `1e999`.
(`JSON.parse` can never produce `NaN`.) -/
inductive JsNumber where
  | val (d : DecNum)
  | posInf
  | negInf
deriving DecidableEq

/-- The decimal number `n`. -/
def JsNumber.ofInt (n : Int) : JsNumber := .val ⟨n, 0⟩

/-- JavaScript `Math.min` on two non-NaN numbers. -/
def jsMin : JsNumber → JsNumber → JsNumber
  | .negInf, _ => .negInf
  | _, .negInf => .negInf
  | .posInf, b => b
  | a, .posInf => a
  | .val a, .val b => if decNumLe a b then .val a else .val b

/-- JavaScript `Math.max` on two non-NaN numbers. -/
def jsMax : JsNumber → JsNumber → JsNumber
  | .posInf, _ => .posInf
  | _, .posInf => .posInf
  | .negInf, b => b
  | a, .negInf => a
  | .val a, .val b => if decNumLe a b then .val b else .val a

/-- `Math.max(0, Math.min(1, confidence))` from `parseResponse`. -/
def clampConfidence (c : JsNumber) : JsNumber :=
  jsMax (.ofInt 0) (jsMin (.ofInt 1) c)

/-- Boolean order on modelled JavaScript numbers. -/
def jsNumLe : JsNumber → JsNumber → Bool
  | .negInf, _ => true
  | _, .posInf => true
  | .posInf, _ => false
  | _, .negInf => false
  | .val a, .val b => decNumLe a b

/-- A parsed JSON value. -/
inductive JsValue where
  | null
  | bool (b : Bool)
  | num (n : JsNumber)
  | str (s : String)
  | arr (elems : List JsValue)
  | obj (fields : List (String × JsValue))

/-- JSON whitespace (`JSON.parse` accepts exactly these four). -/
def jsonWsChar (c : Char) : Bool := c = ' ' || c = '\t' || c = '\n' || c = '\r'

/-- Hexadecimal digit value. -/
def hexVal (c : Char) : Option Nat :=
  if 48 ≤ c.toNat && c.toNat ≤ 57 then some (c.toNat - 48)
  else if 97 ≤ c.toNat && c.toNat ≤ 102 then some (c.toNat - 87)
  else if 65 ≤ c.toNat && c.toNat ≤ 70 then some (c.toNat - 55)
  else none

/-- Body of a JSON string literal after the opening quote (fuel-bounded;
each step consumes at least one character, so fuel `length + 1` is ample):
returns the decoded characters and the input following the closing quote.
Surrogate pairs in `\u` escapes are combined; a code point outside Lean's
scalar range becomes `Char.ofNat`'s default, standing in for a lone
surrogate. -/
def parseStringRest : Nat → List Char → Option (List Char × List Char)
  | 0, _ => none
  | _, [] => none
  | _ + 1, '"' :: r => some ([], r)
  | fuel + 1, '\\' :: e :: r =>
    match e, r with
    | '"', _ => (parseStringRest fuel r).map (fun (s, r2) => ('"' :: s, r2))
    | '\\', _ => (parseStringRest fuel r).map (fun (s, r2) => ('\\' :: s, r2))
    | '/', _ => (parseStringRest fuel r).map (fun (s, r2) => ('/' :: s, r2))
    | 'b', _ => (parseStringRest fuel r).map (fun (s, r2) => ('\x08' :: s, r2))
    | 'f', _ => (parseStringRest fuel r).map (fun (s, r2) => ('\x0c' :: s, r2))
    | 'n', _ => (parseStringRest fuel r).map (fun (s, r2) => ('\n' :: s, r2))
    | 'r', _ => (parseStringRest fuel r).map (fun (s, r2) => ('\r' :: s, r2))
    | 't', _ => (parseStringRest fuel r).map (fun (s, r2) => ('\t' :: s, r2))
    | 'u', a :: b :: c :: d :: r2 =>
      match hexVal a, hexVal b, hexVal c, hexVal d with
      | some ha, some hb, some hc, some hd =>
        let n := ((ha * 16 + hb) * 16 + hc) * 16 + hd
        if 0xd800 ≤ n && n ≤ 0xdbff then
          match r2 with
          | '\\' :: 'u' :: a2 :: b2 :: c2 :: d2 :: r3 =>
            match hexVal a2, hexVal b2, hexVal c2, hexVal d2 with
            | some ha2, some hb2, some hc2, some hd2 =>
              let m := ((ha2 * 16 + hb2) * 16 + hc2) * 16 + hd2
              if 0xdc00 ≤ m && m ≤ 0xdfff then
                (parseStringRest fuel r3).map (fun (s, r4) =>
                  (Char.ofNat (0x10000 + (n - 0xd800) * 0x400 + (m - 0xdc00)) :: s,
                    r4))
              else
                (parseStringRest fuel r2).map (fun (s, r4) =>
                  (Char.ofNat n :: s, r4))
            | _, _, _, _ =>
              (parseStringRest fuel r2).map (fun (s, r4) => (Char.ofNat n :: s, r4))
          | _ =>
            (parseStringRest fuel r2).map (fun (s, r4) => (Char.ofNat n :: s, r4))
        else
          (parseStringRest fuel r2).map (fun (s, r4) => (Char.ofNat n :: s, r4))
      | _, _, _, _ => none
    | _, _ => none
  | fuel + 1, c :: r =>
    if c.toNat < 32 then none
    else (parseStringRest fuel r).map (fun (s, r2) => (c :: s, r2))

/-- Mantissa of the IEEE-754 double overflow threshold `2^1024 - 2^970`:
decimal literals with magnitude at or above it become infinities under
round-to-nearest-even. -/
def doubleOverflowMan : Int := 179769313486231580793728971405303415079934132710037826936173778980444968292764750946649017977587207096330286416692887910946555547851940402630657488671505820681908902000708383676273854845817711531764475730270069855571366959622842914819860834936475292719074168444365510704342711559699508093042880177904174497792

example : doubleOverflowMan = (((2 ^ 54 - 1) * 2 ^ 970 : Nat) : Int) := by
  unfold doubleOverflowMan
  norm_num

/-- An exact decimal value as the JavaScript number it denotes. -/
def decToJsNumber (d : DecNum) : JsNumber :=
  if decNumLe ⟨doubleOverflowMan, 0⟩ d then .posInf
  else if decNumLe d ⟨-doubleOverflowMan, 0⟩ then .negInf
  else .val d

/-- JSON number grammar: optional minus, integer part without leading
zeros, optional fraction, optional exponent. -/
def parseNumberToken (l : List Char) : Option (JsNumber × List Char) :=
  let neg := l.headD ' ' = '-'
  let l1 := if neg then l.tail else l
  let ip := l1.takeWhile charIsDigit
  if ip.isEmpty then none
  else if ip.headD ' ' = '0' && 1 < ip.length then none
  else
    let l2 := l1.drop ip.length
    let fracStep : Option (List Char × List Char) :=
      match l2 with
      | '.' :: r =>
        let fp := r.takeWhile charIsDigit
        if fp.isEmpty then none else some (fp, r.drop fp.length)
      | _ => some ([], l2)
    match fracStep with
    | none => none
    | some (fp, l3) =>
      let expStep : Option (Int × List Char) :=
        match l3 with
        | 'e' :: r | 'E' :: r =>
          let esign : Int × List Char :=
            match r with
            | '-' :: r2 => (-1, r2)
            | '+' :: r2 => (1, r2)
            | r2 => (1, r2)
          let ep := esign.2.takeWhile charIsDigit
          if ep.isEmpty then none
          else some (esign.1 * (digitsToNat ep : Int), esign.2.drop ep.length)
        | _ => some (0, l3)
      match expStep with
      | none => none
      | some (e, l4) =>
        let m0 : Int := (digitsToNat ip : Int) * pow10 fp.length + (digitsToNat fp : Int)
        some (decToJsNumber ⟨if neg then -m0 else m0, e - (fp.length : Int)⟩, l4)

mutual

/-- One JSON value (fuel-bounded recursive descent modelling `JSON.parse`);
skips leading whitespace, returns the value and the unconsumed input. The
fuel passed at top level is ample: at least one input character separates
every two fuel decrements. -/
def parseJsonValue : Nat → List Char → Option (JsValue × List Char)
  | 0, _ => none
  | fuel + 1, l =>
    match l.dropWhile jsonWsChar with
    | 'n' :: 'u' :: 'l' :: 'l' :: r => some (.null, r)
    | 't' :: 'r' :: 'u' :: 'e' :: r => some (.bool true, r)
    | 'f' :: 'a' :: 'l' :: 's' :: 'e' :: r => some (.bool false, r)
    | '"' :: r =>
      (parseStringRest (r.length + 1) r).map (fun (s, r2) => (.str ⟨s⟩, r2))
    | '[' :: r =>
      match r.dropWhile jsonWsChar with
      | ']' :: r2 => some (.arr [], r2)
      | r2 => (parseJsonItems fuel r2).map (fun (es, r3) => (.arr es, r3))
    | '{' :: r =>
      match r.dropWhile jsonWsChar with
      | '}' :: r2 => some (.obj [], r2)
      | r2 => (parseJsonMembers fuel r2).map (fun (fs, r3) => (.obj fs, r3))
    | r => (parseNumberToken r).map (fun (n, r2) => (.num n, r2))

/-- Comma-separated array elements, ending at `]`. -/
def parseJsonItems : Nat → List Char → Option (List JsValue × List Char)
  | 0, _ => none
  | fuel + 1, l =>
    match parseJsonValue fuel l with
    | none => none
    | some (v, r) =>
      match r.dropWhile jsonWsChar with
      | ']' :: r2 => some ([v], r2)
      | ',' :: r2 => (parseJsonItems fuel r2).map (fun (es, r3) => (v :: es, r3))
      | _ => none

/-- Comma-separated `"key": value` members, ending at `}`. -/
def parseJsonMembers :
    Nat → List Char → Option (List (String × JsValue) × List Char)
  | 0, _ => none
  | fuel + 1, l =>
    match l.dropWhile jsonWsChar with
    | '"' :: r =>
      match parseStringRest (r.length + 1) r with
      | none => none
      | some (k, r2) =>
        match r2.dropWhile jsonWsChar with
        | ':' :: r3 =>
          match parseJsonValue fuel r3 with
          | none => none
          | some (v, r4) =>
            match r4.dropWhile jsonWsChar with
            | '}' :: r5 => some ([(⟨k⟩, v)], r5)
            | ',' :: r5 =>
              (parseJsonMembers fuel r5).map (fun (fs, r6) => ((⟨k⟩, v) :: fs, r6))
            | _ => none
        | _ => none
    | _ => none

end

/-- Model of `JSON.parse`: parse one value and require only whitespace to
remain. `none` models a thrown `SyntaxError`. -/
def jsonParse (s : String) : Option JsValue :=
  match parseJsonValue (2 * s.data.length + 2) s.data with
  | some (v, rest) => if (rest.dropWhile jsonWsChar).isEmpty then some v else none
  | none => none

/-- JavaScript property read `obj[key]` on a parsed JSON value: only objects
have own properties here, and for duplicate keys the later member wins,
as in `JSON.parse`. -/
def objGet (v : JsValue) (key : String) : Option JsValue :=
  match v with
  | .obj fields =>
    fields.foldl (fun acc (kv : String × JsValue) =>
      if kv.1 == key then some kv.2 else acc) none
  | _ => none

example : jsonParse "not json" = none := by rfl
example : jsonParse "\x7b\"a\": 1.5\x7d" = some (.obj [("a", .num (.val ⟨15, -1⟩))]) := by
  rfl
example : jsonParse "[true, null]" = some (.arr [.bool true, .null]) := by rfl
example : jsonParse "1e999" = some (.num .posInf) := by rfl
example : jsonParse "-1e999" = some (.num .negInf) := by rfl
example : jsonParse "01" = none := by rfl
example : jsonParse "-0.3" = some (.num (.val ⟨-3, -1⟩)) := by rfl

/-- First regex pass of `parseResponse`:
`content.replace(/\x60\x60\x60json\n?/g, "")` — leftmost, non-overlapping,
greedy optional newline, no rescanning of produced text. -/
def stripFenceJson : List Char → List Char
  | '\x60' :: '\x60' :: '\x60' :: 'j' :: 's' :: 'o' :: 'n' :: '\n' :: r =>
    stripFenceJson r
  | '\x60' :: '\x60' :: '\x60' :: 'j' :: 's' :: 'o' :: 'n' :: r =>
    stripFenceJson r
  | c :: cs => c :: stripFenceJson cs
  | [] => []

/-- Second regex pass of `parseResponse`:
`.replace(/\x60\x60\x60\n?/g, "")`. -/
def stripFenceBare : List Char → List Char
  | '\x60' :: '\x60' :: '\x60' :: '\n' :: r => stripFenceBare r
  | '\x60' :: '\x60' :: '\x60' :: r => stripFenceBare r
  | c :: cs => c :: stripFenceBare cs
  | [] => []

/-- The `cleanedContent` of `parseResponse`
(src/services/vision-service.ts lines 145-148): both regex passes, then
trim. -/
def cleanContent (content : String) : String :=
  ⟨jsTrimL (stripFenceBare (stripFenceJson content.data))⟩

/-- A reply wrapped in markdown json code fences. -/
def wrapJsonFence (t : String) : String :=
  "\x60\x60\x60json\n" ++ t ++ "\n\x60\x60\x60"

example : cleanContent (wrapJsonFence "\x7b\"a\":1\x7d") = "\x7b\"a\":1\x7d" := by rfl

/-- The validated result record of `parseResponse`; `status` is always the
literal written at src/services/vision-service.ts line 171. -/
structure EvalResult where
  exists_ : Bool
  confidence : JsNumber
  reasoning : String
  status : String
deriving DecidableEq

/-- `VisionService.parseResponse` (src/services/vision-service.ts lines
144-173): strip fences and trim, `JSON.parse`, check `exists` is a boolean,
`confidence` a number, `reasoning` a string (property reads on `null` throw
a `TypeError` in JavaScript, modelled by its error message), then clamp the
confidence and trim the reasoning. -/
def parseResponse (content : String) : Except String EvalResult :=
  match jsonParse (cleanContent content) with
  | none => .error (jsonParseFailMsg content)
  | some .null => .error "TypeError: Cannot read properties of null (reading 'exists')"
  | some v =>
    match objGet v "exists" with
    | some (.bool b) =>
      match objGet v "confidence" with
      | some (.num c) =>
        match objGet v "reasoning" with
        | some (.str r) =>
          .ok ⟨b, clampConfidence c, jsTrim r, "success"⟩
        | _ => .error "AI response missing valid \"reasoning\" string field"
      | _ => .error "AI response missing valid \"confidence\" number field"
    | _ => .error "AI response missing valid \"exists\" boolean field"

example :
    parseResponse "\x7b\"exists\": true, \"confidence\": 0.95, \"reasoning\": \"dog visible\"\x7d"
      = .ok ⟨true, .val ⟨95, -2⟩, "dog visible", "success"⟩ := by rfl

example :
    parseResponse "\x7b\"exists\": true, \"confidence\": 1.5, \"reasoning\": \"x\"\x7d"
      = .ok ⟨true, .val ⟨1, 0⟩, "x", "success"⟩ := by rfl

example :
    parseResponse "not json"
      = .error "Failed to parse AI response as JSON: not json" := by rfl

/-- The hostname set of claim C2 as amended: the hostnames the validator
blocks no matter what the allowlist says — written out from the (amended)
specification text, to be compared with `validateImageUrl`. The amendment:
of the loopback range 127.0.0.0/8 only the literal "127.0.0.1" (and
"0.0.0.0") is blocked. -/
def claimBlockedHost (h : String) : Bool :=
  h == "localhost" || h == "127.0.0.1" || h == "0.0.0.0" ||
  strStarts h "192.168." || strStarts h "10." ||
  strStarts h "172.16." || strStarts h "172.17." || strStarts h "172.18." ||
  strStarts h "172.19." || strStarts h "172.20." || strStarts h "172.21." ||
  strStarts h "172.22." || strStarts h "172.23." || strStarts h "172.24." ||
  strStarts h "172.25." || strStarts h "172.26." || strStarts h "172.27." ||
  strStarts h "172.28." || strStarts h "172.29." || strStarts h "172.30." ||
  strStarts h "172.31." ||
  strStarts h "169.254." ||
  strStarts h "[::1]" || strStarts h "[fe80:" ||
  h == "169.254.169.254" || jsIncludes h "metadata.google.internal"

/-- The four characters `wrapJsonFence` appends after the body: newline
then three backticks. -/
def fenceClose : List Char := '\n' :: '\x60' :: '\x60' :: '\x60' :: []

/-- Three backticks. -/
def fenceTicks : List Char := '\x60' :: '\x60' :: '\x60' :: []

/-- The blocked prefixes named by claim C10. -/
def claimPrivatePrefixes : List String :=
  ["10.", "192.168.", "169.254.",
   "172.16.", "172.17.", "172.18.", "172.19.", "172.20.", "172.21.",
   "172.22.", "172.23.", "172.24.", "172.25.", "172.26.", "172.27.",
   "172.28.", "172.29.", "172.30.", "172.31."]

/-! ### Helper lemmas -/

theorem isPrefixOf_self_append (b c : List Char) : b.isPrefixOf (b ++ c) = true := by
  induction b with
  | nil => simp [List.isPrefixOf]
  | cons x xs ih => simp [List.isPrefixOf, ih]

theorem listContains_self (b : List Char) : listContains b b = true := by
  cases b with
  | nil => rfl
  | cons x xs =>
    rw [listContains]
    have : (x :: xs).isPrefixOf (x :: xs) = true := by
      have h := isPrefixOf_self_append (x :: xs) []
      rwa [List.append_nil] at h
    simp [this]

theorem listContains_append_left (a r p : List Char)
    (h : listContains r p = true) : listContains (a ++ r) p = true := by
  induction a with
  | nil => simpa using h
  | cons x xs ih =>
    rw [List.cons_append, listContains]
    simp [ih]

theorem listContains_prefix_append (b c : List Char) :
    listContains (b ++ c) b = true := by
  cases b with
  | nil => cases c with
    | nil => rfl
    | cons y ys =>
      rw [List.nil_append, listContains]
      simp [List.isPrefixOf]
  | cons x xs =>
    rw [List.cons_append, listContains]
    have : (x :: xs).isPrefixOf (x :: xs ++ c) = true := isPrefixOf_self_append _ _
    simp [this]

theorem dropWhile_idem (p : Char → Bool) (l : List Char) :
    (l.dropWhile p).dropWhile p = l.dropWhile p := by
  induction l with
  | nil => rfl
  | cons x xs ih =>
    by_cases hx : p x = true
    · simp [List.dropWhile, hx, ih]
    · simp [List.dropWhile, hx]

theorem trimLeftL_idem (l : List Char) : trimLeftL (trimLeftL l) = trimLeftL l := by
  simp [trimLeftL, dropWhile_idem]

theorem trimRightL_idem (l : List Char) :
    trimRightL (trimRightL l) = trimRightL l := by
  simp [trimRightL, dropWhile_idem]

theorem trimLeftL_trimRightL_trimLeftL (l : List Char) :
    trimLeftL (trimRightL (trimLeftL l)) = trimRightL (trimLeftL l) := by
  have hMdrop : (trimLeftL l).dropWhile jsIsWs = trimLeftL l := dropWhile_idem _ _
  rcases hR : trimRightL (trimLeftL l) with _ | ⟨c, cs⟩
  · simp [trimLeftL]
  · obtain ⟨t, ht⟩ := List.dropWhile_suffix (l := (trimLeftL l).reverse) (p := jsIsWs)
    have hM2 : trimLeftL l = trimRightL (trimLeftL l) ++ t.reverse := by
      have := congrArg List.reverse ht
      simpa [trimRightL] using this.symm
    rw [hR] at hM2
    have hpc : jsIsWs c = false := by
      by_contra hpc'
      rw [Bool.not_eq_false] at hpc'
      rw [hM2] at hMdrop
      simp only [List.cons_append, List.dropWhile_cons, hpc', if_true] at hMdrop
      have hlen := (List.dropWhile_sublist (l := cs ++ t.reverse) jsIsWs).length_le
      rw [hMdrop] at hlen
      simp at hlen
    rw [trimLeftL, List.dropWhile_cons, hpc]
    simp

theorem decNumLe_total (a b : DecNum) (h : decNumLe a b = false) :
    decNumLe b a = true := by
  rw [decNumLe] at h ⊢
  rw [min_comm b.exp10 a.exp10]
  simp only [decide_eq_false_iff_not, not_le] at h
  simp only [decide_eq_true_eq]
  exact le_of_lt h

/-! ### Claim C4 — feature string validation -/

/-- C4 counterexample: the claim says a whitespace-only feature string is
rejected; the zod schema is `.min(1).max(500)` with no trimming, so the
one-character string " " is accepted. -/
theorem featureSchema_accepts_whitespace_only : featureSchemaAccepts " " = true := by
  decide

/-- C4 (amended): the feature string is accepted exactly when its length is
between 1 and 500; a 500-character string is accepted, a 501-character one
and the empty string are rejected. No trimming is applied. -/
theorem featureSchema_accepts_iff_length_bounds :
    (∀ feature : String,
      featureSchemaAccepts feature = true ↔
        1 ≤ feature.length ∧ feature.length ≤ 500) ∧
    featureSchemaAccepts ⟨List.replicate 500 'a'⟩ = true ∧
    featureSchemaAccepts ⟨List.replicate 501 'a'⟩ = false ∧
    featureSchemaAccepts "" = false := by
  refine ⟨fun f => ?_, by decide, by decide, by decide⟩
  simp [featureSchemaAccepts]

/-! ### Claim C3 — HTTP status mapping for failures -/

/-- C3 counterexample: the claim says a SizeExceeded failure is answered
with status 400; the route classifies caught errors by message substrings
("fetch", "timeout", "HTTP", "format"), and the size-cap message produced
for a declared content-length of 11534336 bytes contains none of them, so
the route answers 500. -/
theorem routeStatus_sizeExceeded_is_500 :
    routeErrorStatus (.thrown (sizeExceededMsg 11534336)) = 500 := by decide

/-- C3 (amended): request-validation and URL-security failures are answered
with 400 directly; a caught error is answered with 400 exactly when its
message contains "fetch", "timeout", "HTTP" or "format" — which holds for
the fetch and unsupported-format messages but not for the size-cap message
(500), nor for the upstream-API, missing-reply, parse-failure and
missing-field messages shown. -/
theorem routeStatus_by_message_substrings :
    routeErrorStatus .requestValidation = 400 ∧
    routeErrorStatus .urlSecurity = 400 ∧
    routeErrorStatus (.thrown fetchTimeoutMsg) = 400 ∧
    routeErrorStatus (.thrown (fetchHttpStatusMsg 404)) = 400 ∧
    routeErrorStatus (.thrown (fetchFailedMsg "Network Error")) = 400 ∧
    routeErrorStatus (.thrown (unsupportedFormatMsg "image/gif")) = 400 ∧
    routeErrorStatus (.thrown (sizeExceededMsg 11534336)) = 500 ∧
    routeErrorStatus (.thrown (openRouterApiErrorMsg "Invalid API key")) = 500 ∧
    routeErrorStatus (.thrown (openRouterRequestFailedMsg "socket hang up")) = 500 ∧
    routeErrorStatus (.thrown (jsonParseFailMsg "not json")) = 500 ∧
    routeErrorStatus (.thrown noModelResponseMsg) = 500 ∧
    routeErrorStatus
      (.thrown "AI response missing valid \"exists\" boolean field") = 500 := by
  decide

/-! ### Claim C5 — advisory size probe -/

/-- C5: if the probe reports a parsed content-length strictly above the
10 MiB cap, the fetch fails at once with the size-cap message, which names
the rounded megabyte count and the "10MB" limit (the catch re-throws it
because it contains "exceeds maximum allowed size"); a length at or below
the cap, an unparsable or absent header, and any transport failure of the
probe are all swallowed and the pipeline proceeds. -/
theorem headProbe_size_gate :
    (∀ cl size, jsParseInt cl = some size → (MAX_IMAGE_SIZE : Int) < size →
      headProbeStep (.completed (some cl)) = .error (sizeExceededMsg size) ∧
      listContains (sizeExceededMsg size).data
        ("MB) exceeds maximum allowed size (10MB)").data = true ∧
      listContains (sizeExceededMsg size).data
        (toString (roundedMb size)).data = true) ∧
    (∀ cl size, jsParseInt cl = some size → size ≤ (MAX_IMAGE_SIZE : Int) →
      headProbeStep (.completed (some cl)) = .ok ()) ∧
    (∀ cl, jsParseInt cl = none → headProbeStep (.completed (some cl)) = .ok ()) ∧
    headProbeStep (.completed none) = .ok () ∧
    headProbeStep .transportFailed = .ok () := by
  have hempty : jsParseInt "" = none := by rfl
  have hmsg : ∀ size : Int, (sizeExceededMsg size).data =
      "Image size (".data ++ ((toString (roundedMb size)).data ++
        ("MB) exceeds maximum allowed size (10MB)").data) := by
    intro size
    rw [sizeExceededMsg, String.data_append, String.data_append,
      List.append_assoc]
  refine ⟨?_, ?_, ?_, rfl, rfl⟩
  · intro cl size h hgt
    have hne : (cl == "") = false := by
      cases hcl : (cl == "") with
      | false => rfl
      | true =>
        simp only [beq_iff_eq] at hcl
        rw [hcl, hempty] at h
        cases h
    refine ⟨?_, ?_, ?_⟩
    · rw [headProbeStep, headSizeCheck, hne, h]
      simp only [Bool.false_eq_true, if_false, if_pos hgt]
      have hc : jsIncludes (sizeExceededMsg size) "exceeds maximum allowed size"
          = true := by
        rw [jsIncludes, hmsg size]
        refine listContains_append_left _ _ _ (listContains_append_left _ _ _ ?_)
        have hsplit : ("MB) exceeds maximum allowed size (10MB)").data =
            "MB) ".data ++ ("exceeds maximum allowed size".data ++ " (10MB)".data) := by
          rfl
        rw [hsplit]
        exact listContains_append_left _ _ _ (listContains_prefix_append _ _)
      rw [hc]
      rfl
    · rw [hmsg size]
      exact listContains_append_left _ _ _
        (listContains_append_left _ _ _ (listContains_self _))
    · rw [hmsg size]
      exact listContains_append_left _ _ _ (listContains_prefix_append _ _)
  · intro cl size h hle
    cases hcl : (cl == "") with
    | false =>
      rw [headProbeStep, headSizeCheck, hcl, h]
      simp only [Bool.false_eq_true, if_false]
      rw [if_neg (not_lt.2 hle)]
    | true =>
      rw [headProbeStep, headSizeCheck, hcl]
      rfl
  · intro cl h
    cases hcl : (cl == "") with
    | false =>
      rw [headProbeStep, headSizeCheck, hcl, h]
      rfl
    | true =>
      rw [headProbeStep, headSizeCheck, hcl]
      rfl

/-- C5 witness: the 11 MiB scenario — a declared content-length of 11534336
bytes fails at once with the message naming "11MB" and "10MB"; a transport
failure of the probe is swallowed. -/
theorem headProbe_size_gate_witness :
    headProbeStep (.completed (some "11534336")) =
      .error "Image size (11MB) exceeds maximum allowed size (10MB)" ∧
    listContains "Image size (11MB) exceeds maximum allowed size (10MB)".data
      "11MB".data = true ∧
    listContains "Image size (11MB) exceeds maximum allowed size (10MB)".data
      "10MB".data = true ∧
    headProbeStep .transportFailed = .ok () := by
  have h := (headProbe_size_gate.1 "11534336" 11534336 (by rfl) (by decide)).1
  refine ⟨?_, by decide, by decide, headProbe_size_gate.2.2.2.2⟩
  rw [h]
  rfl

/-! ### Claim C6 — content-type validation and normalization -/

/-- C6: after lowercasing and stripping parameters after ";", a present
content type containing no allowed type fails with the unsupported-format
message naming it; otherwise the normalized type is exactly one of
image/png, image/webp, image/jpeg, with image/jpeg for a missing type and
for the literal types image/jpeg and image/jpg. -/
theorem contentType_normalization (header : Option String) :
    ((cleanContentType header == "") = false →
      (allowedImageTypes.any fun ty => jsIncludes (cleanContentType header) ty)
        = false →
      contentTypeStep header = .error (unsupportedFormatMsg (cleanContentType header))) ∧
    (∀ n, contentTypeStep header = .ok n →
      n = "image/png" ∨ n = "image/webp" ∨ n = "image/jpeg") ∧
    (cleanContentType header = "" → contentTypeStep header = .ok "image/jpeg") ∧
    (cleanContentType header = "image/jpeg" ∨ cleanContentType header = "image/jpg" →
      contentTypeStep header = .ok "image/jpeg") := by
  refine ⟨?_, ?_, ?_, ?_⟩
  · intro h1 h2
    simp [contentTypeStep, bne, h1, h2]
  · intro n hn
    rw [contentTypeStep] at hn
    split at hn
    · exact Except.noConfusion hn
    · rw [Except.ok.injEq] at hn
      subst hn
      by_cases h1 : jsIncludes (cleanContentType header) "png" = true
      · simp [h1]
      · by_cases h2 : jsIncludes (cleanContentType header) "webp" = true
        · simp [h1, h2]
        · simp [h1, h2]
  · intro h
    rw [contentTypeStep, h]
    rfl
  · intro h
    rcases h with h | h
    · rw [contentTypeStep, h]
      rfl
    · rw [contentTypeStep, h]
      rfl

/-- C6 witness: image/gif is rejected with the message naming it; a missing
header, an upper-case png type with parameters, and the literal image/jpg
normalize as claimed. -/
theorem contentType_normalization_witness :
    contentTypeStep (some "image/gif") =
      .error "Unsupported image format: image/gif. Supported formats: JPG, PNG, WebP" ∧
    contentTypeStep none = .ok "image/jpeg" ∧
    contentTypeStep (some "IMAGE/PNG; charset=utf-8") = .ok "image/png" ∧
    contentTypeStep (some "image/jpg") = .ok "image/jpeg" := by
  refine ⟨?_, ?_, by rfl, ?_⟩
  · have h := (contentType_normalization (some "image/gif")).1 (by rfl) (by rfl)
    rw [h]
    rfl
  · exact (contentType_normalization none).2.2.1 (by rfl)
  · exact (contentType_normalization (some "image/jpg")).2.2.2 (Or.inr (by rfl))

/-! ### Claims C2 and C10 — SSRF hostname blocking -/

theorem claimBlockedHost_eq (h : String) :
    claimBlockedHost h =
      (ssrfBlocked h ||
        (h == "169.254.169.254" || jsIncludes h "metadata.google.internal")) := by
  simp [claimBlockedHost, ssrfBlocked, Bool.or_assoc]

theorem validateImageUrl_isValid_false_of_blocked (u : ParsedUrl)
    (allowed : Option String)
    (h : ssrfBlocked (strLower u.hostname) = true ∨
      (strLower u.hostname == "169.254.169.254" ||
        jsIncludes (strLower u.hostname) "metadata.google.internal") = true) :
    (validateImageUrl u allowed).isValid = false := by
  rw [validateImageUrl]
  split
  next => rfl
  next =>
    split
    next => rfl
    next =>
      split
      next => rfl
      next hssrf =>
        split
        next => rfl
        next hmeta =>
          rcases h with h | h
          · exact absurd h hssrf
          · exact absurd h hmeta

/-- C2 counterexample: the claim says every loopback address is rejected,
but the code compares only against the literal "127.0.0.1", so the loopback
address 127.0.0.2 passes validation (no allowlist configured). -/
theorem validateImageUrl_allows_loopback_127_0_0_2 :
    validateImageUrl ⟨"http:", "127.0.0.2"⟩ none = ⟨true, none⟩ := by decide

/-- C2 (amended): every URL whose lowercased hostname is exactly localhost,
127.0.0.1 or 0.0.0.0, or starts with one of the blocked private /
link-local / IPv6 prefixes, or is a metadata host, is rejected regardless
of the allowedDomains argument. -/
theorem validateImageUrl_rejects_blocked_hosts (u : ParsedUrl)
    (allowed : Option String)
    (h : claimBlockedHost (strLower u.hostname) = true) :
    (validateImageUrl u allowed).isValid = false := by
  rw [claimBlockedHost_eq, Bool.or_eq_true] at h
  exact validateImageUrl_isValid_false_of_blocked u allowed h

/-- C2 witness: "LOCALHOST" (exercising the lowercasing) is rejected even
when the allowlist itself names localhost. -/
theorem validateImageUrl_rejects_blocked_hosts_witness :
    (validateImageUrl ⟨"http:", "LOCALHOST"⟩ (some "localhost")).isValid = false :=
  validateImageUrl_rejects_blocked_hosts ⟨"http:", "LOCALHOST"⟩ (some "localhost")
    (by decide)

/-- C10: the private-range check is a literal string-prefix match on the
lowercased hostname, so any hostname beginning with a blocked prefix is
rejected — with every protocol and allowlist the result is invalid, and
with no allowlist the error is the private-address message — even for a
public DNS name such as "10.example.com". -/
theorem validateImageUrl_prefix_match_rejects (host p : String)
    (hp : p ∈ claimPrivatePrefixes) (hs : strStarts (strLower host) p = true) :
    (∀ protocol allowed,
      (validateImageUrl ⟨protocol, host⟩ allowed).isValid = false) ∧
    validateImageUrl ⟨"http:", host⟩ none =
      ⟨false, some "image_url cannot point to private or localhost addresses"⟩ := by
  have hssrf : ssrfBlocked (strLower host) = true := by
    fin_cases hp <;> simp [ssrfBlocked, hs]
  constructor
  · intro protocol allowed
    exact validateImageUrl_isValid_false_of_blocked ⟨protocol, host⟩ allowed
      (Or.inl hssrf)
  · simp [validateImageUrl, allowlistRejects, hssrf]

/-- C10 witness: "10.example.com", a public DNS name, is rejected as
private, also when the allowlist names it. -/
theorem validateImageUrl_prefix_match_rejects_witness :
    validateImageUrl ⟨"http:", "10.example.com"⟩ none =
      ⟨false, some "image_url cannot point to private or localhost addresses"⟩ ∧
    (validateImageUrl ⟨"http:", "10.example.com"⟩
      (some "10.example.com")).isValid = false := by
  have h := validateImageUrl_prefix_match_rejects "10.example.com" "10."
    (by decide) (by decide)
  exact ⟨h.2, h.1 "http:" (some "10.example.com")⟩

/-! ### Claim C1 — confidence clamping -/

theorem decNumLe_of_not (a b : DecNum) (h : ¬ decNumLe a b = true) :
    decNumLe b a = true := by
  refine decNumLe_total a b ?_
  revert h
  cases decNumLe a b <;> simp

theorem clampConfidence_bounds (c : JsNumber) :
    jsNumLe (.ofInt 0) (clampConfidence c) = true ∧
    jsNumLe (clampConfidence c) (.ofInt 1) = true := by
  rcases c with d | _ | _
  · simp only [clampConfidence, JsNumber.ofInt, jsMin]
    by_cases h1 : decNumLe ⟨1, 0⟩ d = true
    · rw [if_pos h1]
      decide
    · rw [if_neg h1]
      have h1' : decNumLe d ⟨1, 0⟩ = true := decNumLe_of_not _ _ h1
      simp only [jsMax]
      by_cases h2 : decNumLe ⟨0, 0⟩ d = true
      · rw [if_pos h2]
        exact ⟨h2, h1'⟩
      · rw [if_neg h2]
        decide
  · decide
  · decide

/-- C1: every result the normalizer accepts has a confidence between 0 and 1
inclusive: the parsed numeric value — finite, or an infinity from an
overflowing literal such as 1e999 — is clamped by
`Math.max(0, Math.min(1, c))`, never rejected. -/
theorem parseResponse_confidence_in_range (content : String) (r : EvalResult)
    (h : parseResponse content = .ok r) :
    jsNumLe (.ofInt 0) r.confidence = true ∧
    jsNumLe r.confidence (.ofInt 1) = true := by
  rw [parseResponse] at h
  repeat' split at h
  all_goals first
    | exact Except.noConfusion h
    | (rw [Except.ok.injEq] at h
       subst h
       exact clampConfidence_bounds _)

/-- C1 witness: an upstream confidence of 1.5 is accepted and clamped to 1,
which lies in the unit interval. -/
theorem parseResponse_confidence_in_range_witness :
    jsNumLe (.ofInt 0)
      (EvalResult.confidence ⟨true, .val ⟨1, 0⟩, "x", "success"⟩) = true ∧
    jsNumLe (EvalResult.confidence ⟨true, .val ⟨1, 0⟩, "x", "success"⟩)
      (.ofInt 1) = true :=
  parseResponse_confidence_in_range
    "\x7b\"exists\": true, \"confidence\": 1.5, \"reasoning\": \"x\"\x7d"
    ⟨true, .val ⟨1, 0⟩, "x", "success"⟩ (by rfl)

/-! ### Claim C7 — parse failure embeds the raw reply -/

/-- C7: when the fence-stripped reply is not parseable JSON, the normalizer
fails with the parse-failure message, which carries the original raw reply
verbatim (as a substring). -/
theorem parseResponse_parse_failure_embeds_raw (content : String)
    (h : jsonParse (cleanContent content) = none) :
    parseResponse content = .error (jsonParseFailMsg content) ∧
    listContains (jsonParseFailMsg content).data content.data = true := by
  constructor
  · rw [parseResponse, h]
  · rw [jsonParseFailMsg, String.data_append]
    exact listContains_append_left _ _ _ (listContains_self _)

/-- C7 witness: the raw reply "not json" fails with a message containing
it. -/
theorem parseResponse_parse_failure_embeds_raw_witness :
    parseResponse "not json" =
      .error "Failed to parse AI response as JSON: not json" ∧
    listContains "Failed to parse AI response as JSON: not json".data
      "not json".data = true := by
  have h := parseResponse_parse_failure_embeds_raw "not json" (by rfl)
  refine ⟨?_, by decide⟩
  rw [h.1]
  rfl

/-! ### Claim C9 — shape of successful results -/

theorem jsTrimL_idem (l : List Char) : jsTrimL (jsTrimL l) = jsTrimL l := by
  rw [jsTrimL, jsTrimL, trimLeftL_trimRightL_trimLeftL]
  exact trimRightL_idem _

theorem jsTrim_idem (s : String) : jsTrim (jsTrim s) = jsTrim s :=
  congrArg String.mk (jsTrimL_idem s.data)

/-- C9 counterexample: the claim says every successful result has a
non-empty reasoning string, but the normalizer only trims: a reasoning of
"  " yields a successful result whose reasoning is empty. -/
theorem parseResponse_success_empty_reasoning :
    parseResponse "\x7b\"exists\": true, \"confidence\": 0.5, \"reasoning\": \"  \"\x7d"
      = .ok ⟨true, .val ⟨5, -1⟩, "", "success"⟩ := by rfl

/-- C9 (amended): every successful result has status "success" and a
reasoning equal to the model's reasoning field with surrounding whitespace
trimmed — possibly the empty string. -/
theorem parseResponse_success_shape (content : String) (r : EvalResult)
    (h : parseResponse content = .ok r) :
    r.status = "success" ∧ jsTrim r.reasoning = r.reasoning := by
  rw [parseResponse] at h
  repeat' split at h
  all_goals first
    | exact Except.noConfusion h
    | (rw [Except.ok.injEq] at h
       subst h
       exact ⟨rfl, jsTrim_idem _⟩)

/-- C9 witness: the empty-after-trim reasoning scenario instantiates the
amended claim. -/
theorem parseResponse_success_shape_witness :
    EvalResult.status ⟨true, .val ⟨5, -1⟩, "", "success"⟩ = "success" ∧
    jsTrim (EvalResult.reasoning ⟨true, .val ⟨5, -1⟩, "", "success"⟩)
      = EvalResult.reasoning ⟨true, .val ⟨5, -1⟩, "", "success"⟩ :=
  parseResponse_success_shape
    "\x7b\"exists\": true, \"confidence\": 0.5, \"reasoning\": \"  \"\x7d"
    ⟨true, .val ⟨5, -1⟩, "", "success"⟩ (by rfl)

/-! ### Claim C8 — fence round-trip

The two regex passes of `parseResponse` scan left to right without
rescanning produced text. Wrapping a reply in json fences adds the exact
first-pass pattern in front — removed whole — and a newline plus three
backticks behind; the lemmas below track what the two passes can leave of
that tail (nothing, or a trailing newline the final trim removes). -/

theorem prefix_of_append_no_nl (q : List Char) : ∀ (cs u r : List Char),
    '\n' ∉ q → cs ++ '\n' :: u = q ++ r → ∃ cs2, cs = q ++ cs2 := by
  induction q with
  | nil => exact fun cs u r _ _ => ⟨cs, rfl⟩
  | cons x q2 ih =>
    intro cs u r hno heq
    cases cs with
    | nil =>
      rw [List.nil_append, List.cons_append] at heq
      injection heq with hx _
      exact absurd (hx ▸ List.mem_cons_self x q2) hno
    | cons y cs2 =>
      rw [List.cons_append, List.cons_append] at heq
      injection heq with hy htail
      obtain ⟨cs3, hcs3⟩ := ih cs2 u r (fun hm => hno (List.mem_cons_of_mem _ hm)) htail
      exact ⟨cs3, by rw [List.cons_append, hy, hcs3]⟩

theorem stripFenceBare_append_ticks (X : List Char) :
    stripFenceBare (X ++ fenceTicks) = stripFenceBare X := by
  induction X using stripFenceBare.induct with
  | case1 r ih =>
    simp only [List.cons_append]
    rw [stripFenceBare.eq_1, stripFenceBare.eq_1, ih]
  | case2 r h ih =>
    cases r with
    | nil => decide
    | cons c r2 =>
      have hc : ∀ r3, c :: (r2 ++ fenceTicks) = '\n' :: r3 → False := by
        intro r3 heq
        injection heq with h1 _
        exact h r2 (by rw [h1])
      simp only [List.cons_append]
      rw [stripFenceBare.eq_2 _ hc, stripFenceBare.eq_2 _ h]
      exact ih
  | case3 c cs h1 h2 ih =>
    by_cases hcb : c = '\x60'
    · subst hcb
      cases cs with
      | nil => decide
      | cons c2 cs2 =>
        by_cases hc2 : c2 = '\x60'
        · subst hc2
          cases cs2 with
          | nil => decide
          | cons c3 cs3 =>
            have hc3 : ¬ c3 = '\x60' := fun hh => h2 cs3 rfl (by rw [hh])
            have cond1 : ∀ r, ('\x60' : Char) = '\x60' →
                ('\x60' :: c3 :: cs3) ++ fenceTicks =
                  '\x60' :: '\x60' :: '\n' :: r → False := by
              intro r _ heq
              rw [List.cons_append, List.cons_append] at heq
              injection heq with _ heq2
              injection heq2 with hc3' _
              exact hc3 hc3'
            have cond2 : ∀ r, ('\x60' : Char) = '\x60' →
                ('\x60' :: c3 :: cs3) ++ fenceTicks = '\x60' :: '\x60' :: r → False := by
              intro r _ heq
              rw [List.cons_append, List.cons_append] at heq
              injection heq with _ heq2
              injection heq2 with hc3' _
              exact hc3 hc3'
            rw [List.cons_append, stripFenceBare.eq_3 _ _ cond1 cond2,
              stripFenceBare.eq_3 _ _ h1 h2, ih]
        · have cond1 : ∀ r, ('\x60' : Char) = '\x60' →
              (c2 :: cs2) ++ fenceTicks = '\x60' :: '\x60' :: '\n' :: r → False := by
            intro r _ heq
            rw [List.cons_append] at heq
            injection heq with hc2' _
            exact hc2 hc2'
          have cond2 : ∀ r, ('\x60' : Char) = '\x60' →
              (c2 :: cs2) ++ fenceTicks = '\x60' :: '\x60' :: r → False := by
            intro r _ heq
            rw [List.cons_append] at heq
            injection heq with hc2' _
            exact hc2 hc2'
          rw [List.cons_append, stripFenceBare.eq_3 _ _ cond1 cond2,
            stripFenceBare.eq_3 _ _ h1 h2, ih]
    · have cond1 : ∀ r, c = '\x60' →
          cs ++ fenceTicks = '\x60' :: '\x60' :: '\n' :: r → False :=
        fun _ hcc _ => hcb hcc
      have cond2 : ∀ r, c = '\x60' → cs ++ fenceTicks = '\x60' :: '\x60' :: r → False :=
        fun _ hcc _ => hcb hcc
      rw [List.cons_append, stripFenceBare.eq_3 _ _ cond1 cond2,
        stripFenceBare.eq_3 _ _ h1 h2, ih]
  | case4 => decide

theorem stripFenceBare_append_close (X : List Char) :
    stripFenceBare (X ++ fenceClose) = stripFenceBare X ∨
      stripFenceBare (X ++ fenceClose) = stripFenceBare X ++ ['\n'] := by
  induction X using stripFenceBare.induct with
  | case1 r ih =>
    simp only [List.cons_append]
    rw [stripFenceBare.eq_1, stripFenceBare.eq_1]
    exact ih
  | case2 r h ih =>
    cases r with
    | nil => decide
    | cons c r2 =>
      have hc : ∀ r3, c :: (r2 ++ fenceClose) = '\n' :: r3 → False := by
        intro r3 heq
        injection heq with h1 _
        exact h r2 (by rw [h1])
      simp only [List.cons_append]
      rw [stripFenceBare.eq_2 _ hc, stripFenceBare.eq_2 _ h]
      exact ih
  | case3 c cs h1 h2 ih =>
    have step : (∀ r, c = '\x60' →
          cs ++ fenceClose = '\x60' :: '\x60' :: '\n' :: r → False) →
        (∀ r, c = '\x60' → cs ++ fenceClose = '\x60' :: '\x60' :: r → False) →
        (stripFenceBare ((c :: cs) ++ fenceClose) = stripFenceBare (c :: cs) ∨
          stripFenceBare ((c :: cs) ++ fenceClose) =
            stripFenceBare (c :: cs) ++ ['\n']) := by
      intro cond1 cond2
      rw [List.cons_append, stripFenceBare.eq_3 _ _ cond1 cond2,
        stripFenceBare.eq_3 _ _ h1 h2]
      rcases ih with ih | ih
      · left
        rw [ih]
      · right
        rw [ih, List.cons_append]
    by_cases hcb : c = '\x60'
    · subst hcb
      cases cs with
      | nil => decide
      | cons c2 cs2 =>
        by_cases hc2 : c2 = '\x60'
        · subst hc2
          cases cs2 with
          | nil => decide
          | cons c3 cs3 =>
            have hc3 : ¬ c3 = '\x60' := fun hh => h2 cs3 rfl (by rw [hh])
            refine step ?_ ?_ <;>
            · intro r _ heq
              rw [List.cons_append, List.cons_append] at heq
              injection heq with _ heq2
              injection heq2 with hc3' _
              exact hc3 hc3'
        · refine step ?_ ?_ <;>
          · intro r _ heq
            rw [List.cons_append] at heq
            injection heq with hc2' _
            exact hc2 hc2'
    · exact step (fun _ hcc _ => hcb hcc) (fun _ hcc _ => hcb hcc)
  | case4 => decide

theorem stripFenceJson_append_close (t : List Char) :
    stripFenceJson (t ++ fenceClose) = stripFenceJson t ++ fenceClose ∨
      stripFenceJson (t ++ fenceClose) = stripFenceJson t ++ fenceTicks := by
  induction t using stripFenceJson.induct with
  | case1 r ih =>
    simp only [List.cons_append]
    rw [stripFenceJson.eq_1, stripFenceJson.eq_1]
    exact ih
  | case2 r h ih =>
    cases r with
    | nil => decide
    | cons c r2 =>
      have hc : ∀ r3, c :: (r2 ++ fenceClose) = '\n' :: r3 → False := by
        intro r3 heq
        injection heq with hcc _
        exact h r2 (by rw [hcc])
      simp only [List.cons_append]
      rw [stripFenceJson.eq_2 _ hc, stripFenceJson.eq_2 _ h]
      exact ih
  | case3 c cs h1 h2 ih =>
    have cond2 : ∀ r, c = '\x60' →
        cs ++ fenceClose = '\x60' :: '\x60' :: 'j' :: 's' :: 'o' :: 'n' :: r → False := by
      intro r hcc heq
      obtain ⟨cs2, hcs2⟩ := prefix_of_append_no_nl
        ['\x60', '\x60', 'j', 's', 'o', 'n'] cs fenceTicks r (by decide) heq
      exact h2 cs2 hcc hcs2
    have cond1 : ∀ r, c = '\x60' →
        cs ++ fenceClose =
          '\x60' :: '\x60' :: 'j' :: 's' :: 'o' :: 'n' :: '\n' :: r → False := by
      intro r hcc heq
      obtain ⟨cs2, hcs2⟩ := prefix_of_append_no_nl
        ['\x60', '\x60', 'j', 's', 'o', 'n'] cs fenceTicks ('\n' :: r) (by decide) heq
      rw [hcs2, List.append_assoc] at heq
      have heq2 := List.append_cancel_left heq
      cases cs2 with
      | nil => exact h2 [] hcc hcs2
      | cons z cs3 =>
        rw [List.cons_append] at heq2
        injection heq2 with hz _
        exact h1 cs3 hcc (by rw [hcs2, hz]; rfl)
    rw [List.cons_append, stripFenceJson.eq_3 _ _ cond1 cond2,
      stripFenceJson.eq_3 _ _ h1 h2]
    rcases ih with ih | ih
    · left
      rw [ih, List.cons_append]
    · right
      rw [ih, List.cons_append]
  | case4 => decide

theorem trimRightL_append_nl (Y : List Char) :
    trimRightL (Y ++ ['\n']) = trimRightL Y := by
  rw [trimRightL, trimRightL, List.reverse_append]
  have hnl : jsIsWs '\n' = true := by decide
  simp [List.dropWhile_cons, hnl]

theorem trimLeftL_append (Z L : List Char) :
    trimLeftL (Z ++ L) =
      if trimLeftL Z = [] then trimLeftL L else trimLeftL Z ++ L := by
  induction Z with
  | nil => simp [trimLeftL]
  | cons c Z2 ih =>
    simp only [trimLeftL, List.cons_append, List.dropWhile_cons] at ih ⊢
    by_cases hw : jsIsWs c = true
    · simp only [hw, if_true]
      exact ih
    · simp [hw]

theorem jsTrimL_append_nl (Z : List Char) : jsTrimL (Z ++ ['\n']) = jsTrimL Z := by
  rw [jsTrimL, jsTrimL, trimLeftL_append]
  by_cases h : trimLeftL Z = []
  · rw [if_pos h, h]
    decide
  · rw [if_neg h]
    exact trimRightL_append_nl _

theorem cleanContent_wrapJsonFence (t : String) :
    cleanContent (wrapJsonFence t) = cleanContent t := by
  have hdata : (wrapJsonFence t).data =
      '\x60' :: '\x60' :: '\x60' :: 'j' :: 's' :: 'o' :: 'n' :: '\n' ::
        (t.data ++ fenceClose) := by
    obtain ⟨l⟩ := t
    show ("\x60\x60\x60json\n".data ++ l) ++ "\n\x60\x60\x60".data = _
    rw [List.append_assoc]
    rfl
  rw [cleanContent, cleanContent, hdata, stripFenceJson.eq_1]
  apply congrArg String.mk
  rcases stripFenceJson_append_close t.data with hA | hA
  · rw [hA]
    rcases stripFenceBare_append_close (stripFenceJson t.data) with hB | hB
    · rw [hB]
    · rw [hB]
      exact jsTrimL_append_nl _
  · rw [hA, stripFenceBare_append_ticks]

/-- C8: the normalizer treats a reply wrapped in json code fences exactly
like the bare reply: the cleaned content is identical, so either both parse
to the very same result (or the same field error), or both fail as parse
failures (each embedding its own raw text). -/
theorem parseResponse_fence_roundtrip (t : String) :
    cleanContent (wrapJsonFence t) = cleanContent t ∧
    (parseResponse (wrapJsonFence t) = parseResponse t ∨
      (parseResponse (wrapJsonFence t) = .error (jsonParseFailMsg (wrapJsonFence t)) ∧
        parseResponse t = .error (jsonParseFailMsg t))) := by
  have hc := cleanContent_wrapJsonFence t
  refine ⟨hc, ?_⟩
  simp only [parseResponse, hc]
  cases jsonParse (cleanContent t) with
  | none =>
    right
    constructor <;> rfl
  | some v =>
    left
    cases v <;> rfl
